import Mathlib

set_option maxHeartbeats 1000000

/-!
Verification development for an RSS aggregation and AI-enrichment system.

Front-end state and helpers are embedded from the TypeScript sources under
frontend/src (the zustand app store, the content truncation helper, the
article detail summary rendering, and the tag enumerations). The back-end
pipeline services (ingestion and deduplication, the feed validation cache,
the label and summary processors with their retry schedulers) are not part
of the shipped sources; their definitions are modelled from the
specification and are marked as such in their doc comments.
-/

namespace RssFeed

/-- View selection values of the app store: the union favorites | trash. -/
inductive ViewKind where
  | favorites
  | trash
  deriving DecidableEq

/-- State fields of the zustand app store (useAppStore.ts, the version with
selectedView). -/
structure AppState where
  selectedSourceId : Option String
  selectedArticleId : Option String
  selectedCategory : Option String
  selectedTags : List String
  selectedView : Option ViewKind
  deriving DecidableEq

/-- Initial store state: every selection null and no tags. -/
def initialAppState : AppState :=
  { selectedSourceId := none
    selectedArticleId := none
    selectedCategory := none
    selectedTags := []
    selectedView := none }

/-- Body of toggleTag in useAppStore.ts: remove the tag when present in the
list, append it otherwise. -/
def toggleTagList (tag : String) (tags : List String) : List String :=
  if tag ∈ tags then tags.filter (fun t => decide (t ≠ tag)) else tags ++ [tag]

/-- Store actions exposed by useAppStore. -/
inductive AppAction where
  | setSelectedSourceId (id : Option String)
  | setSelectedArticleId (id : Option String)
  | setSelectedCategory (category : Option String)
  | setSelectedTags (tags : List String)
  | setSelectedView (view : Option ViewKind)
  | toggleTag (tag : String)
  | clearTags
  deriving DecidableEq

/-- Transition function of the store: each action writes exactly the fields
its zustand set call writes. -/
def applyAction : AppAction → AppState → AppState
  | .setSelectedSourceId id, s =>
      { s with selectedSourceId := id, selectedCategory := none,
               selectedArticleId := none, selectedTags := [], selectedView := none }
  | .setSelectedArticleId id, s => { s with selectedArticleId := id }
  | .setSelectedCategory c, s =>
      { s with selectedCategory := c, selectedSourceId := none,
               selectedArticleId := none, selectedTags := [], selectedView := none }
  | .setSelectedTags tags, s => { s with selectedTags := tags }
  | .setSelectedView v, s =>
      { s with selectedView := v, selectedSourceId := none,
               selectedCategory := none, selectedArticleId := none, selectedTags := [] }
  | .toggleTag tag, s => { s with selectedTags := toggleTagList tag s.selectedTags }
  | .clearTags, s => { s with selectedTags := [] }

/-- Store states reachable from the initial state by store actions. -/
inductive Reachable : AppState → Prop where
  | init : Reachable initialAppState
  | step {s : AppState} (a : AppAction) : Reachable s → Reachable (applyAction a s)

/-- Number of the three mutually exclusive selections that are set. -/
def selectionCount (s : AppState) : Nat :=
  (if s.selectedSourceId.isSome then 1 else 0) +
  (if s.selectedCategory.isSome then 1 else 0) +
  (if s.selectedView.isSome then 1 else 0)

/-- Positions in a character list at which the two-character sequence of a
less-than sign followed by a slash begins (the JS lastIndexOf argument in
truncateContent). -/
def closingTagPositions (l : List Char) : List Nat :=
  (List.range l.length).filter (fun i => decide ((l.drop i).take 2 = ['<', '/']))

/-- JS lastIndexOf for that two-character sequence: the greatest matching
position, or -1 when there is none. -/
def lastIndexOfClosing (l : List Char) : Int :=
  match (closingTagPositions l).getLast? with
  | some i => (i : Int)
  | none => -1

/-- JS indexOf for the greater-than character: the least matching position,
or -1 when there is none. -/
def firstIndexOfGt (l : List Char) : Int :=
  match l.findIdx? (fun c => decide (c = '>')) with
  | some i => (i : Int)
  | none => -1

/-- truncateContent from sanitizeContent.ts over the character list of the JS
string. The guard comparing the last closing-tag position with
maxLength * 0.8 is embedded as the exact comparison 5 * position >
4 * maxLength; the length bound proved below holds on both branches, so it
does not depend on the rounding of that product. -/
def truncateContent (content : List Char) (maxLength : Nat) : List Char :=
  if content = [] ∨ content.length ≤ maxLength then content
  else
    let truncated := content.take maxLength
    let lastClosingTag := lastIndexOfClosing truncated
    if 5 * lastClosingTag > 4 * (maxLength : Int) then
      truncated.take
        (lastClosingTag + firstIndexOfGt (truncated.drop lastClosingTag.toNat) + 1).toNat
    else
      truncated ++ ['.', '.', '.']

/-- Summary status values of the Article union type in
frontend/src/types/index.ts: pending | success | error | ignored. -/
def summaryStatusValues : List String := ["pending", "success", "error", "ignored"]

/-- Label status values of the Article union type in
frontend/src/types/index.ts: pending | processing | done | error. -/
def labelStatusValues : List String := ["pending", "processing", "done", "error"]

/-- Summary status as the four-constructor type matching the union. -/
inductive SummaryStatus where
  | pending
  | success
  | error
  | ignored
  deriving DecidableEq

/-- String carried on the wire for each summary status value. -/
def summaryStatusString : SummaryStatus → String
  | .pending => "pending"
  | .success => "success"
  | .error => "error"
  | .ignored => "ignored"

/-- AI label payload carried by an Article (the ai_labels field shape). -/
structure AiLabels where
  identities : List String
  themes : List String
  extra : List String
  vibe_coding : Bool
  deriving DecidableEq

/-- Article fields consumed by renderAISummary in the detail view. -/
structure ArticleView where
  ai_labels : Option AiLabels
  ai_summary_status : Option SummaryStatus
  ai_summary : Option String
  ai_summary_error : Option String
  deriving DecidableEq

/-- Skip tag: the ignorable identity classification. -/
def skipTag : String := "#可忽略"

/-- Does the article carry the skip identity tag (the first guard of
renderAISummary in the detail component). -/
def hasSkipIdentity (a : ArticleView) : Bool :=
  match a.ai_labels with
  | some lb => decide (skipTag ∈ lb.identities)
  | none => false

/-- renderAISummary from the article detail component: the summary section is
hidden when the identities include the skip tag; otherwise it renders with
the summary status of the article, a missing status defaulting to pending.
The result is the status string the rendered section displays, none when the
section is hidden. -/
def renderAISummary (a : ArticleView) : Option String :=
  if hasSkipIdentity a then none
  else some (summaryStatusString (a.ai_summary_status.getD .pending))

/-- Identity tag enumeration, from the TagFilter grouping in the frontend. -/
def identityTags : List String :=
  ["#独立开发必备", "#博主素材", "#双重价值", "#可忽略"]

/-- Theme tag enumeration, from the TagFilter grouping in the frontend. -/
def themeTags : List String :=
  ["#模型动态", "#技术教程", "#深度洞察", "#经验分享", "#AI应用", "#趣味探索"]

/-- Modelled from the spec: the label processor validation of a tag payload
(the back-end labeling service is not among the shipped sources). Encodes the
data-model invariant: 0 or 1 identity tags drawn from the identity
enumeration, 1 or 2 theme tags drawn from the theme enumeration, at most 2
free tags of at most 6 characters each, and a boolean special flag. -/
def validateLabels (p : AiLabels) : Bool :=
  decide (p.identities.length ≤ 1) &&
  p.identities.all (fun t => decide (t ∈ identityTags)) &&
  decide (1 ≤ p.themes.length) && decide (p.themes.length ≤ 2) &&
  p.themes.all (fun t => decide (t ∈ themeTags)) &&
  decide (p.extra.length ≤ 2) &&
  p.extra.all (fun t => decide (t.length ≤ 6))

/-- Modelled from the spec: on a successful completion response the label
processor writes label state done together with the validated payload; a
payload failing the shape check is treated like an API failure and written as
label state error with no payload. -/
def labelWriteBack (resp : Option AiLabels) : String × Option AiLabels :=
  match resp with
  | some p => if validateLabels p then ("done", some p) else ("error", none)
  | none => ("error", none)

/-- Label state as the four-constructor type matching the union. -/
inductive LabelState where
  | pending
  | processing
  | done
  | error
  deriving DecidableEq

/-- Conditional update: write the new state only when the current state
equals the expected prior state (the WHERE guard of the conditional-update
pattern in the spec). -/
def condUpdate (expected newState : LabelState) (s : LabelState) : LabelState :=
  if s = expected then newState else s

/-- Modelled from the spec: the four status writes performed on the label
state; the first three belong to the label processor, the last to the retry
scheduler. -/
inductive LabelOp where
  | markProcessing
  | markDone
  | markError
  | retryReset
  deriving DecidableEq

/-- Modelled from the spec: every label status write is a conditional update
keyed on the expected prior state. -/
def applyLabelOp : LabelOp → LabelState → LabelState
  | .markProcessing => condUpdate .pending .processing
  | .markDone => condUpdate .processing .done
  | .markError => condUpdate .processing .error
  | .retryReset => condUpdate .error .pending

/-- The label transitions allowed by the data-model invariant. -/
def allowedLabelTransition (s t : LabelState) : Bool :=
  decide ((s = .pending ∧ t = .processing) ∨ (s = .processing ∧ t = .done) ∨
    (s = .processing ∧ t = .error) ∨ (s = .error ∧ t = .pending))

/-- Item fields the enrichment pipeline reads and writes. -/
structure PipelineItem where
  label_status : String
  identities : List String
  body : String
  summary_status : String
  deriving DecidableEq

/-- Minimum body length for summary generation (100 characters). -/
def minBodyLength : Nat := 100

/-- Modelled from the spec: the selection predicate of the summary processor:
summary state pending and label state done. -/
def summarySelected (it : PipelineItem) : Bool :=
  decide (it.summary_status = "pending") && decide (it.label_status = "done")

/-- Modelled from the spec: the length and skip filter: identity tag not the
skip tag and body length at least the minimum threshold. -/
def summaryEligible (it : PipelineItem) : Bool :=
  !(decide (skipTag ∈ it.identities)) && decide (minBodyLength ≤ it.body.length)

/-- Modelled from the spec: one completion call with up to two retries; the
oracle gives the outcome of attempt n; the result is the number of calls
issued and whether the last one succeeded. -/
def callWithRetries (api : Nat → Bool) : Nat × Bool :=
  if api 0 then (1, true)
  else if api 1 then (2, true)
  else (3, api 2)

/-- Modelled from the spec: the per-item action of process_pending in the
summary processor: unselected items are untouched; selected items failing the
filter are marked ignored with no API call; remaining items get a completion
call with retries and end in success or error. The second component counts
the completion-API calls issued for the item. -/
def summaryProcessItem (api : Nat → Bool) (it : PipelineItem) :
    PipelineItem × Nat :=
  if summarySelected it then
    if summaryEligible it then
      let r := callWithRetries api
      if r.2 then ({ it with summary_status := "success" }, r.1)
      else ({ it with summary_status := "error" }, r.1)
    else ({ it with summary_status := "ignored" }, 0)
  else (it, 0)

/-- Modelled from the spec: process_pending of the summary processor over a
work list, with the per-item completion-call counts. -/
def summaryProcessPending (api : Nat → Bool) (items : List PipelineItem) :
    List (PipelineItem × Nat) :=
  items.map (summaryProcessItem api)

/-- Stored item row created by ingestion. -/
structure ItemRow where
  source_id : String
  dedup_key : String
  label_status : String
  summary_status : String
  is_read : Bool
  deriving DecidableEq

/-- Parsed feed entry: the per-entry identifier gives the dedup key. -/
structure FeedEntry where
  guid : String
  title : String
  deriving DecidableEq

/-- Number of rows of a store matching a source and a dedup key. -/
def rowCount (store : List ItemRow) (sid k : String) : Nat :=
  (store.filter (fun r => decide (r.source_id = sid ∧ r.dedup_key = k))).length

/-- Modelled from the spec: existence check for a row with this source and
dedup key. -/
def hasRow (store : List ItemRow) (sid k : String) : Bool :=
  store.any (fun r => decide (r.source_id = sid ∧ r.dedup_key = k))

/-- Modelled from the spec: the row inserted for a new entry, with label and
summary state pending. -/
def newRow (sid : String) (e : FeedEntry) : ItemRow :=
  { source_id := sid, dedup_key := e.guid, label_status := "pending",
    summary_status := "pending", is_read := false }

/-- Modelled from the spec: ingest one entry: skip when the (source, key)
pair already exists, otherwise insert and count. -/
def ingestStep (sid : String) (acc : List ItemRow × Nat) (e : FeedEntry) :
    List ItemRow × Nat :=
  if hasRow acc.1 sid e.guid then acc else (acc.1 ++ [newRow sid e], acc.2 + 1)

/-- Modelled from the spec: ingest(source_id, items) returning the new store
and the inserted count. -/
def ingest (store : List ItemRow) (sid : String) (items : List FeedEntry) :
    List ItemRow × Nat :=
  items.foldl (ingestStep sid) (store, 0)

/-- Cache TTL in seconds (default 180). -/
def cacheTTL : Nat := 180

/-- Cache capacity (default 999 entries). -/
def cacheMaxSize : Nat := 999

/-- Modelled from the spec: the feed validation cache as a recency-ordered
association list of key, value and insertion time, most recent first. -/
abbrev FeedCache (α : Type) : Type := List (String × α × Nat)

/-- Modelled from the spec: lazy-expiry read: a hit older than the TTL is
treated as absent. -/
def cacheGet {α : Type} (c : FeedCache α) (url : String) (now : Nat) :
    Option α :=
  match c.find? (fun e => decide (e.1 = url)) with
  | some e => if cacheTTL < now - e.2.2 then none else some e.2.1
  | none => none

/-- Modelled from the spec: put inserts at the most recent position,
replacing any previous entry for the key, and evicts the least recently used
entry (the last of the recency list) when the capacity is exceeded. -/
def cachePut {α : Type} (c : FeedCache α) (url : String) (v : α) (now : Nat) :
    FeedCache α :=
  let c2 : FeedCache α := (url, v, now) :: c.filter (fun e => decide (e.1 ≠ url))
  if cacheMaxSize < c2.length then c2.dropLast else c2

/-- Summary concurrency bound (default 4 simultaneous completion calls). -/
def maxConcurrent : Nat := 4

/-- Modelled from the spec: abstract state of the bounded pool: jobs waiting
for dispatch, completion calls in flight, finished jobs. -/
structure PoolState where
  waiting : Nat
  inFlight : Nat
  finished : Nat
  deriving DecidableEq

/-- Modelled from the spec: dispatch acquires a semaphore slot and is enabled
only strictly below the bound; finish releases a slot. -/
inductive PoolStep : PoolState → PoolState → Prop where
  | dispatch (s : PoolState) (hw : 0 < s.waiting) (hf : s.inFlight < maxConcurrent) :
      PoolStep s
        { waiting := s.waiting - 1, inFlight := s.inFlight + 1, finished := s.finished }
  | finish (s : PoolState) (hf : 0 < s.inFlight) :
      PoolStep s
        { waiting := s.waiting, inFlight := s.inFlight - 1, finished := s.finished + 1 }

/-- Modelled from the spec: pool states reachable from a burst of n pending
summary items with nothing in flight. -/
inductive PoolReachable (n : Nat) : PoolState → Prop where
  | init : PoolReachable n { waiting := n, inFlight := 0, finished := 0 }
  | step {s t : PoolState} : PoolReachable n s → PoolStep s t → PoolReachable n t

/-- Sample payload used to evaluate the label shape theorem. -/
def samplePayload : AiLabels := ⟨["#可忽略"], ["#AI应用"], [], false⟩

/-- Every summary status string differs from the string processing. -/
theorem summaryStatusString_ne_processing (st : SummaryStatus) :
    summaryStatusString st ≠ "processing" := by
  cases st <;> decide

/-- C2: every label status write either leaves the state unchanged or
performs one of the four allowed transitions pending→processing,
processing→done, processing→error, error→pending, the state always staying
within the four-value type; and a write taking error to pending is performed
only by the retry scheduler reset. -/
theorem labelState_transitions (op : LabelOp) (s : LabelState) :
    (applyLabelOp op s = s ∨
      allowedLabelTransition s (applyLabelOp op s) = true) ∧
    (s = .error → applyLabelOp op s = .pending → op = .retryReset) := by
  cases op <;> cases s <;> exact ⟨by decide, by decide⟩

/-- C2 witness: the retry reset applied at the error state performs the
allowed error→pending transition, and it is the retry scheduler operation. -/
theorem labelState_transitions_witness :
    (applyLabelOp .retryReset .error = .error ∨
      allowedLabelTransition .error (applyLabelOp .retryReset .error) = true) ∧
    LabelOp.retryReset = LabelOp.retryReset :=
  ⟨(labelState_transitions .retryReset .error).1,
    (labelState_transitions .retryReset .error).2 rfl (by decide)⟩

/-- C1 counterexample: processing is not among the values of the summary
status union type of an Item, so the summary state does not range over the
five claimed values. -/
theorem summaryStatus_processing_absent :
    ¬ ("processing" ∈ summaryStatusValues) := by
  decide

/-- C1 (amended): the summary state of an Item ranges over exactly the four
values pending, success, error, ignored; for an article whose identity tags
do not include the skip tag the summary section renders the summary status,
a missing status defaulting to pending, and the rendered status is never
processing. -/
theorem summaryStatus_four_values (a : ArticleView)
    (h : hasSkipIdentity a = false) :
    (∀ st : SummaryStatus, summaryStatusString st ∈ summaryStatusValues) ∧
    summaryStatusValues.length = 4 ∧
    "processing" ∉ summaryStatusValues ∧
    renderAISummary a =
      some (summaryStatusString (a.ai_summary_status.getD .pending)) ∧
    renderAISummary a ≠ some "processing" := by
  have hr : renderAISummary a =
      some (summaryStatusString (a.ai_summary_status.getD .pending)) := by
    simp [renderAISummary, h]
  refine ⟨fun st => by cases st <;> decide, by decide, by decide, hr, ?_⟩
  rw [hr]
  intro hc
  exact summaryStatusString_ne_processing _ (Option.some.inj hc)

/-- C1 witness: the amended statement evaluated at an article with no labels
and no status. -/
theorem summaryStatus_four_values_witness :
    renderAISummary ⟨none, none, none, none⟩ = some "pending" ∧
    "processing" ∉ summaryStatusValues := by
  have h := summaryStatus_four_values ⟨none, none, none, none⟩ (by decide)
  exact ⟨h.2.2.2.1, h.2.2.1⟩

/-- C7: in every pool state reachable from a burst of pending summary items
of any size, the number of in-flight completion calls never exceeds the
concurrency bound of 4; dispatch is enabled only when a slot is free. -/
theorem pool_inFlight_bound (n : Nat) (s : PoolState)
    (h : PoolReachable n s) : s.inFlight ≤ maxConcurrent := by
  induction h with
  | init => exact Nat.zero_le _
  | step hr hst ih =>
    cases hst with
    | dispatch hw hf => exact hf
    | finish hf =>
      simp only [maxConcurrent] at ih ⊢
      omega

/-- C7 witness: the bound holds at the initial burst of 20 pending items. -/
theorem pool_inFlight_bound_witness :
    ({ waiting := 20, inFlight := 0, finished := 0 } : PoolState).inFlight ≤
      maxConcurrent :=
  pool_inFlight_bound 20 _ PoolReachable.init

/-- C10: truncateContent returns the content unchanged when it is empty or
not longer than maxLength, and otherwise returns at most maxLength + 3
characters. -/
theorem truncateContent_length (content : List Char) (maxLength : Nat)
    (_hpos : 0 < maxLength) :
    ((content = [] ∨ content.length ≤ maxLength) →
      truncateContent content maxLength = content) ∧
    (content ≠ [] → maxLength < content.length →
      (truncateContent content maxLength).length ≤ maxLength + 3) := by
  constructor
  · intro h
    rw [truncateContent, if_pos h]
  · intro hne hlt
    have hcond : ¬ (content = [] ∨ content.length ≤ maxLength) := by
      push_neg
      exact ⟨hne, hlt⟩
    rw [truncateContent, if_neg hcond]
    have htl : (content.take maxLength).length = maxLength := by
      rw [List.length_take]
      omega
    simp only []
    split
    · rw [List.length_take, htl]
      exact le_trans (Nat.min_le_right _ _) (by omega)
    · rw [List.length_append, htl]
      simp

/-- C10 witness: the bound at a two-character content below the limit and a
five-character content above the limit 3. -/
theorem truncateContent_length_witness :
    (0 : Nat) < 3 ∧
    truncateContent ['a', 'b'] 3 = ['a', 'b'] ∧
    (truncateContent ['a', 'b', 'c', 'd', 'e'] 3).length ≤ 3 + 3 := by
  refine ⟨by decide, ?_, ?_⟩
  · exact (truncateContent_length ['a', 'b'] 3 (by decide)).1 (Or.inr (by decide))
  · exact (truncateContent_length ['a', 'b', 'c', 'd', 'e'] 3 (by decide)).2
      (by decide) (by decide)

/-- The toggled tag is in the list after toggleTag iff it was absent. -/
theorem mem_toggleTagList_self (tag : String) (l : List String) :
    tag ∈ toggleTagList tag l ↔ tag ∉ l := by
  by_cases h : tag ∈ l
  · simp [toggleTagList, h]
  · simp [toggleTagList, h]

/-- Toggling the same tag twice preserves list membership. -/
theorem mem_toggleTagList_twice (tag x : String) (l : List String) :
    x ∈ toggleTagList tag (toggleTagList tag l) ↔ x ∈ l := by
  by_cases h : tag ∈ l
  · have h1 : toggleTagList tag l = l.filter (fun t => decide (t ≠ tag)) :=
      if_pos h
    have h2 : tag ∉ l.filter (fun t => decide (t ≠ tag)) := by
      simp [List.mem_filter]
    rw [h1, toggleTagList, if_neg h2]
    simp only [List.mem_append, List.mem_filter, List.mem_singleton,
      decide_eq_true_eq]
    constructor
    · rintro (⟨hxl, _⟩ | rfl)
      · exact hxl
      · exact h
    · intro hxl
      by_cases hx : x = tag
      · exact Or.inr hx
      · exact Or.inl ⟨hxl, hx⟩
  · have h1 : toggleTagList tag l = l ++ [tag] := if_neg h
    have h2 : tag ∈ l ++ [tag] := by simp
    have h3 : l.filter (fun t => decide (t ≠ tag)) = l := by
      apply List.filter_eq_self.mpr
      intro a ha
      simp only [decide_eq_true_eq]
      intro hcontra
      rw [hcontra] at ha
      exact h ha
    rw [h1, toggleTagList, if_pos h2, List.filter_append, h3]
    simp

/-- C9: after toggleTag the toggled tag is selected iff it was not selected
before, and on a duplicate-free tag selection toggling the same tag twice
yields a selection with exactly the same members. -/
theorem toggleTag_roundtrip (s : AppState) (tag : String) :
    ((tag ∈ (applyAction (.toggleTag tag) s).selectedTags) ↔
      tag ∉ s.selectedTags) ∧
    (s.selectedTags.Nodup →
      ∀ x, x ∈ (applyAction (.toggleTag tag)
          (applyAction (.toggleTag tag) s)).selectedTags ↔
        x ∈ s.selectedTags) := by
  refine ⟨?_, fun _ x => ?_⟩
  · simpa [applyAction] using mem_toggleTagList_self tag s.selectedTags
  · simpa [applyAction] using mem_toggleTagList_twice tag x s.selectedTags

/-- C9 witness: toggling a tag on the initial store state selects it, and a
double toggle restores the empty membership. -/
theorem toggleTag_roundtrip_witness :
    ("a" ∈ (applyAction (.toggleTag "a") initialAppState).selectedTags ↔
      "a" ∉ initialAppState.selectedTags) ∧
    ("a" ∈ (applyAction (.toggleTag "a")
        (applyAction (.toggleTag "a") initialAppState)).selectedTags ↔
      "a" ∈ initialAppState.selectedTags) :=
  ⟨(toggleTag_roundtrip initialAppState "a").1,
    (toggleTag_roundtrip initialAppState "a").2 List.nodup_nil "a"⟩

/-- C3: an item selected by the summary processor whose identities include
the skip tag or whose body is shorter than 100 characters is marked ignored
with zero completion-API calls, and the same pair appears item-wise in the
result of process_pending. -/
theorem summary_skip_ignored (api : Nat → Bool) (it : PipelineItem)
    (hsum : it.summary_status = "pending") (hlab : it.label_status = "done")
    (hfail : skipTag ∈ it.identities ∨ it.body.length < minBodyLength) :
    summaryProcessItem api it = ({ it with summary_status := "ignored" }, 0) ∧
    ∀ items : List PipelineItem, it ∈ items →
      ({ it with summary_status := "ignored" }, 0) ∈
        summaryProcessPending api items := by
  have h1 : summarySelected it = true := by
    simp [summarySelected, hsum, hlab]
  have h2 : summaryEligible it = false := by
    rcases hfail with h | h
    · simp [summaryEligible, h]
    · have hn : ¬ (minBodyLength ≤ it.body.length) := Nat.not_le.mpr h
      simp [summaryEligible, hn]
  have hmain : summaryProcessItem api it =
      ({ it with summary_status := "ignored" }, 0) := by
    simp [summaryProcessItem, h1, h2]
  refine ⟨hmain, fun items hmem => ?_⟩
  rw [← hmain]
  exact List.mem_map_of_mem _ hmem

/-- C3 witness: a labeled, pending item carrying the skip tag is ignored
with zero completion calls. -/
theorem summary_skip_ignored_witness :
    summaryProcessItem (fun _ => true)
        ⟨"done", ["#可忽略"], "body", "pending"⟩ =
      (⟨"done", ["#可忽略"], "body", "ignored"⟩, 0) :=
  (summary_skip_ignored (fun _ => true)
    ⟨"done", ["#可忽略"], "body", "pending"⟩ rfl rfl (Or.inl (by decide))).1

/-- C8: every reachable store state has at most one of source, category and
view selected, and each selection action with a non-null argument also resets
the selected tags to empty and the selected article to null. -/
theorem store_selection_exclusive (s : AppState) (h : Reachable s) :
    selectionCount s ≤ 1 ∧
    (∀ (i : String) (t : AppState),
      (applyAction (.setSelectedSourceId (some i)) t).selectedTags = [] ∧
      (applyAction (.setSelectedSourceId (some i)) t).selectedArticleId = none) ∧
    (∀ (c : String) (t : AppState),
      (applyAction (.setSelectedCategory (some c)) t).selectedTags = [] ∧
      (applyAction (.setSelectedCategory (some c)) t).selectedArticleId = none) ∧
    (∀ (v : ViewKind) (t : AppState),
      (applyAction (.setSelectedView (some v)) t).selectedTags = [] ∧
      (applyAction (.setSelectedView (some v)) t).selectedArticleId = none) := by
  refine ⟨?_, fun i t => ⟨rfl, rfl⟩, fun c t => ⟨rfl, rfl⟩, fun v t => ⟨rfl, rfl⟩⟩
  induction h with
  | init => decide
  | step a hr ih =>
    cases a with
    | setSelectedSourceId id =>
      cases id <;> simp [applyAction, selectionCount]
    | setSelectedArticleId id =>
      simpa [applyAction, selectionCount] using ih
    | setSelectedCategory c =>
      cases c <;> simp [applyAction, selectionCount]
    | setSelectedTags tags =>
      simpa [applyAction, selectionCount] using ih
    | setSelectedView v =>
      cases v <;> simp [applyAction, selectionCount]
    | toggleTag tag =>
      simpa [applyAction, selectionCount] using ih
    | clearTags =>
      simpa [applyAction, selectionCount] using ih

/-- C8 witness: the exclusivity bound at the initial state and the resets of
a concrete source selection. -/
theorem store_selection_exclusive_witness :
    selectionCount initialAppState ≤ 1 ∧
    (applyAction (.setSelectedSourceId (some "s1")) initialAppState).selectedTags
      = [] ∧
    (applyAction (.setSelectedSourceId (some "s1"))
      initialAppState).selectedArticleId = none := by
  have h := store_selection_exclusive initialAppState Reachable.init
  exact ⟨h.1, (h.2.1 "s1" initialAppState).1, (h.2.1 "s1" initialAppState).2⟩

/-- C5: every payload the label processor writes back with state done has 0
or 1 identity tags drawn from the four-value identity enumeration, 1 or 2
theme tags drawn from the six-value theme enumeration, and at most 2 free
tags of at most 6 characters each; the special flag is boolean by type. -/
theorem labelPayload_shape (resp : Option AiLabels) (p : AiLabels)
    (h : labelWriteBack resp = ("done", some p)) :
    p.identities.length ≤ 1 ∧ (∀ t ∈ p.identities, t ∈ identityTags) ∧
    identityTags.length = 4 ∧
    1 ≤ p.themes.length ∧ p.themes.length ≤ 2 ∧
    (∀ t ∈ p.themes, t ∈ themeTags) ∧ themeTags.length = 6 ∧
    p.extra.length ≤ 2 ∧ ∀ t ∈ p.extra, t.length ≤ 6 := by
  cases resp with
  | none =>
    rw [labelWriteBack] at h
    simp only [Prod.mk.injEq] at h
    exact absurd h.1 (by decide)
  | some q =>
    rw [labelWriteBack] at h
    by_cases hv : validateLabels q = true
    · rw [if_pos hv] at h
      simp only [Prod.mk.injEq, Option.some.injEq] at h
      obtain ⟨-, rfl⟩ := h
      simp only [validateLabels, Bool.and_eq_true, decide_eq_true_eq,
        List.all_eq_true] at hv
      obtain ⟨⟨⟨⟨⟨⟨h1, h2⟩, h3⟩, h4⟩, h5⟩, h6⟩, h7⟩ := hv
      exact ⟨h1, h2, rfl, h3, h4, h5, rfl, h6, h7⟩
    · rw [if_neg hv] at h
      simp only [Prod.mk.injEq] at h
      exact absurd h.1 (by decide)

/-- C5 witness: the shape bounds hold at a concrete validated payload. -/
theorem labelPayload_shape_witness :
    samplePayload.identities.length ≤ 1 ∧
    (∀ t ∈ samplePayload.identities, t ∈ identityTags) ∧
    identityTags.length = 4 ∧
    1 ≤ samplePayload.themes.length ∧ samplePayload.themes.length ≤ 2 ∧
    (∀ t ∈ samplePayload.themes, t ∈ themeTags) ∧ themeTags.length = 6 ∧
    samplePayload.extra.length ≤ 2 ∧ ∀ t ∈ samplePayload.extra, t.length ≤ 6 :=
  labelPayload_shape (some samplePayload) samplePayload (by decide)

/-- Row existence over an appended store splits disjunctively. -/
theorem hasRow_append (store l : List ItemRow) (sid k : String) :
    hasRow (store ++ l) sid k = (hasRow store sid k || hasRow l sid k) := by
  simp [hasRow, List.any_append]

/-- One ingestion step never loses an existing row. -/
theorem ingestStep_hasRow_mono (sid k : String) (acc : List ItemRow × Nat)
    (e : FeedEntry) (h : hasRow acc.1 sid k = true) :
    hasRow (ingestStep sid acc e).1 sid k = true := by
  rw [ingestStep]
  split
  · exact h
  · simp [hasRow_append, h]

/-- A whole ingestion run never loses an existing row. -/
theorem foldl_hasRow_mono (sid k : String) (items : List FeedEntry)
    (acc : List ItemRow × Nat) (h : hasRow acc.1 sid k = true) :
    hasRow ((items.foldl (ingestStep sid) acc)).1 sid k = true := by
  induction items generalizing acc with
  | nil => exact h
  | cons e rest ih =>
    rw [List.foldl_cons]
    exact ih _ (ingestStep_hasRow_mono sid k acc e h)

/-- The freshly inserted row is found under its own source and key. -/
theorem hasRow_newRow (sid : String) (e : FeedEntry) :
    hasRow [newRow sid e] sid e.guid = true := by
  simp [hasRow, newRow]

/-- After ingesting a batch, every entry of the batch has a row. -/
theorem foldl_hasRow_of_mem (sid : String) (items : List FeedEntry)
    (acc : List ItemRow × Nat) (e : FeedEntry) (he : e ∈ items) :
    hasRow ((items.foldl (ingestStep sid) acc)).1 sid e.guid = true := by
  induction items generalizing acc with
  | nil => cases he
  | cons x rest ih =>
    rw [List.foldl_cons]
    rcases List.mem_cons.mp he with rfl | hmem
    · apply foldl_hasRow_mono
      rw [ingestStep]
      split
      · assumption
      · simp [hasRow_append, hasRow_newRow]
    · exact ih _ hmem

/-- A run over entries whose keys all exist already changes nothing and
counts nothing. -/
theorem foldl_skip_all (sid : String) (items : List FeedEntry)
    (acc : List ItemRow × Nat)
    (h : ∀ e ∈ items, hasRow acc.1 sid e.guid = true) :
    items.foldl (ingestStep sid) acc = acc := by
  induction items with
  | nil => rfl
  | cons x rest ih =>
    rw [List.foldl_cons]
    have hx : ingestStep sid acc x = acc := by
      rw [ingestStep, if_pos (h x (List.mem_cons_self x rest))]
    rw [hx]
    exact ih (fun e he => h e (List.mem_cons_of_mem x he))

/-- Row counts over an appended store add up. -/
theorem rowCount_append (store l : List ItemRow) (sid k : String) :
    rowCount (store ++ l) sid k = rowCount store sid k + rowCount l sid k := by
  simp [rowCount, List.filter_append]

/-- An absent (source, key) pair has row count zero. -/
theorem rowCount_eq_zero_of_not_hasRow (store : List ItemRow) (sid k : String)
    (h : hasRow store sid k = false) : rowCount store sid k = 0 := by
  rw [rowCount, List.length_eq_zero, List.filter_eq_nil_iff]
  rw [hasRow, List.any_eq_false] at h
  intro a ha
  exact h a ha

/-- A present (source, key) pair has positive row count. -/
theorem rowCount_pos_of_hasRow (store : List ItemRow) (sid k : String)
    (h : hasRow store sid k = true) : 0 < rowCount store sid k := by
  rw [hasRow, List.any_eq_true] at h
  obtain ⟨x, hx, hp⟩ := h
  rw [rowCount, List.length_pos]
  intro hnil
  rw [List.filter_eq_nil_iff] at hnil
  exact hnil x hx hp

/-- The row count of a singleton insertion is one exactly on its own key. -/
theorem rowCount_single_newRow (sid k : String) (e : FeedEntry) :
    rowCount [newRow sid e] sid k = if e.guid = k then 1 else 0 := by
  by_cases hk : e.guid = k
  · simp [rowCount, newRow, hk]
  · simp [rowCount, newRow, hk]

/-- One ingestion step preserves the at-most-one-row invariant. -/
theorem rowCount_ingestStep_le (sid k : String) (acc : List ItemRow × Nat)
    (e : FeedEntry) (h : rowCount acc.1 sid k ≤ 1) :
    rowCount (ingestStep sid acc e).1 sid k ≤ 1 := by
  rw [ingestStep]
  split
  · exact h
  · rename_i hnot
    rw [Bool.not_eq_true] at hnot
    show rowCount (acc.1 ++ [newRow sid e]) sid k ≤ 1
    rw [rowCount_append, rowCount_single_newRow]
    by_cases hk : e.guid = k
    · have h0 : rowCount acc.1 sid k = 0 := by
        apply rowCount_eq_zero_of_not_hasRow
        rw [← hk]
        exact hnot
      rw [h0, if_pos hk]
    · rw [if_neg hk]
      omega

/-- A whole ingestion run preserves the at-most-one-row invariant. -/
theorem rowCount_ingest_le (sid k : String) (items : List FeedEntry)
    (acc : List ItemRow × Nat) (h : rowCount acc.1 sid k ≤ 1) :
    rowCount ((items.foldl (ingestStep sid) acc)).1 sid k ≤ 1 := by
  induction items generalizing acc with
  | nil => exact h
  | cons x rest ih =>
    rw [List.foldl_cons]
    exact ih _ (rowCount_ingestStep_le sid k acc x h)

/-- The inserted counter accounts exactly for the store growth. -/
theorem ingest_length_invariant (sid : String) (items : List FeedEntry)
    (acc : List ItemRow × Nat) :
    ((items.foldl (ingestStep sid) acc)).1.length + acc.2 =
      acc.1.length + ((items.foldl (ingestStep sid) acc)).2 := by
  induction items generalizing acc with
  | nil => rfl
  | cons x rest ih =>
    rw [List.foldl_cons, ingestStep]
    split
    · exact ih acc
    · have hstep := ih (acc.1 ++ [newRow sid x], acc.2 + 1)
      dsimp only at hstep
      rw [List.length_append] at hstep
      simp only [List.length_singleton] at hstep
      omega

/-- C4: ingestion is idempotent per dedup key: re-ingesting the same batch is
a no-op with inserted count zero; when stores hold at most one row per
(source, key) pair and the batch contains the key, exactly one row exists
after one and after two ingestions; and the inserted count accounts exactly
for the genuinely new rows. -/
theorem ingest_idempotent (store : List ItemRow) (sid k : String)
    (items : List FeedEntry) (hinv : rowCount store sid k ≤ 1)
    (hk : ∃ e ∈ items, e.guid = k) :
    ingest (ingest store sid items).1 sid items =
      ((ingest store sid items).1, 0) ∧
    rowCount (ingest store sid items).1 sid k = 1 ∧
    rowCount (ingest (ingest store sid items).1 sid items).1 sid k = 1 ∧
    (ingest store sid items).1.length =
      store.length + (ingest store sid items).2 := by
  obtain ⟨e, he, rfl⟩ := hk
  have hnoop : ingest (ingest store sid items).1 sid items =
      ((ingest store sid items).1, 0) := by
    rw [ingest]
    apply foldl_skip_all
    intro x hx
    exact foldl_hasRow_of_mem sid items (store, 0) x hx
  have h1 : rowCount (ingest store sid items).1 sid e.guid = 1 := by
    have hle : rowCount (ingest store sid items).1 sid e.guid ≤ 1 :=
      rowCount_ingest_le sid e.guid items (store, 0) hinv
    have hpos : 0 < rowCount (ingest store sid items).1 sid e.guid :=
      rowCount_pos_of_hasRow _ _ _
        (foldl_hasRow_of_mem sid items (store, 0) e he)
    omega
  have hlen : (ingest store sid items).1.length =
      store.length + (ingest store sid items).2 := by
    rw [ingest]
    have hinv2 := ingest_length_invariant sid items (store, 0)
    dsimp only at hinv2
    omega
  refine ⟨hnoop, h1, ?_, hlen⟩
  rw [hnoop]
  exact h1

/-- C4 witness: ingesting a one-entry batch twice into an empty store leaves
exactly one row and the second run is a counted no-op. -/
theorem ingest_idempotent_witness :
    ingest (ingest [] "s" [⟨"g1", "t"⟩]).1 "s" [⟨"g1", "t"⟩] =
      ((ingest [] "s" [⟨"g1", "t"⟩]).1, 0) ∧
    rowCount (ingest [] "s" [⟨"g1", "t"⟩]).1 "s" "g1" = 1 ∧
    rowCount (ingest (ingest [] "s" [⟨"g1", "t"⟩]).1 "s" [⟨"g1", "t"⟩]).1
      "s" "g1" = 1 ∧
    (ingest [] "s" [⟨"g1", "t"⟩]).1.length =
      ([] : List ItemRow).length + (ingest [] "s" [⟨"g1", "t"⟩]).2 :=
  ingest_idempotent [] "s" "g1" [⟨"g1", "t"⟩] (by decide)
    ⟨⟨"g1", "t"⟩, by decide, rfl⟩

/-- A put leaves the written entry at the most recent position. -/
theorem cachePut_head {α : Type} (c : FeedCache α) (url : String) (v : α)
    (t : Nat) : ∃ rest, cachePut c url v t = (url, v, t) :: rest := by
  rw [cachePut]
  split
  · rename_i hlong
    match hf : c.filter (fun e => decide (e.1 ≠ url)) with
    | [] =>
      rw [hf] at hlong
      simp [cacheMaxSize] at hlong
    | y :: ys =>
      rw [hf] at hlong ⊢
      exact ⟨(y :: ys).dropLast, rfl⟩
  · exact ⟨_, rfl⟩

/-- Reading the key just written yields the value unless the TTL elapsed. -/
theorem cacheGet_cachePut_self {α : Type} (c : FeedCache α) (url : String)
    (v : α) (t now : Nat) :
    cacheGet (cachePut c url v t) url now =
      if cacheTTL < now - t then none else some v := by
  obtain ⟨rest, hr⟩ := cachePut_head c url v t
  rw [hr, cacheGet, List.find?_cons_of_pos]
  · simp

/-- A put never grows the cache beyond the capacity bound. -/
theorem cachePut_length {α : Type} (c : FeedCache α) (url : String) (v : α)
    (t : Nat) (hcap : c.length ≤ cacheMaxSize) :
    (cachePut c url v t).length ≤ cacheMaxSize := by
  rw [cachePut]
  split
  · rw [List.length_dropLast]
    simp only [List.length_cons]
    have hf : (c.filter (fun e => decide (e.1 ≠ url))).length ≤ c.length :=
      List.length_filter_le _ _
    omega
  · rename_i hshort
    rw [Nat.not_lt] at hshort
    exact hshort

/-- C6: a get more than the TTL after the entry was put returns a miss even
without explicit eviction; a put keeps the cache within the capacity bound
of 999; and when the bound would be exceeded the evicted entry is the least
recently used one, the last of the recency-ordered list. -/
theorem cache_ttl_capacity {α : Type} (c : FeedCache α) (url : String)
    (v : α) (t now : Nat) (hcap : c.length ≤ cacheMaxSize)
    (ht : cacheTTL < now - t) :
    cacheGet (cachePut c url v t) url now = none ∧
    (cachePut c url v t).length ≤ cacheMaxSize ∧
    (cacheMaxSize <
        ((url, v, t) :: c.filter (fun e => decide (e.1 ≠ url))).length →
      cachePut c url v t =
        ((url, v, t) :: c.filter (fun e => decide (e.1 ≠ url))).dropLast) := by
  refine ⟨?_, cachePut_length c url v t hcap, ?_⟩
  · rw [cacheGet_cachePut_self, if_pos ht]
  · intro hover
    rw [cachePut]
    rw [if_pos hover]

/-- C6 witness: the TTL miss and the capacity bound at a put into the empty
cache read 181 seconds later. -/
theorem cache_ttl_capacity_witness :
    cacheGet (cachePut ([] : FeedCache Nat) "u" 0 0) "u" 181 = none ∧
    (cachePut ([] : FeedCache Nat) "u" 0 0).length ≤ cacheMaxSize := by
  have h := cache_ttl_capacity ([] : FeedCache Nat) "u" 0 0 181
    (by decide) (by decide)
  exact ⟨h.1, h.2.1⟩

end RssFeed
